import Mathlib

/-!
Verification of the radiation-interception module of `light_interception_pub.py`.

The numeric Python code is embedded shallowly over `ℝ`:

* floats become real numbers (rounding is not modelled);
* `assert` statements become `Option`-valued results (`none` = the call
  raises, `some r` = the call returns `r`);
* the Python idiom `assert (a and b and c and n) > 0` is modelled exactly:
  the chained `and` yields its first zero ("falsy") operand, otherwise its
  last operand, and only that value is compared with `0`;
* numpy array loops become `List.map` / `List.sum` / `List.prod` over lists,
  in the iteration order of the source.
-/

namespace LightInterception

/-- `height_weight_fact` from the source.  The guard models the Python
statement `assert (height_dom and dominant_fact and suppressed_fact and
number_species) > 0`: the `and`-chain evaluates to the first operand equal
to `0`, else to `number_species`, and only that value is required to be
positive.  The three branches mirror the source's `if/elif/else`. -/
noncomputable def height_weight_fact (height_dom dominant_fact suppressed_fact : ℝ)
    (number_species : ℕ) : Option ℝ :=
  if (if height_dom = 0 then height_dom
      else if dominant_fact = 0 then dominant_fact
      else if suppressed_fact = 0 then suppressed_fact
      else (number_species : ℝ)) > 0 then
    some (if height_dom = 1 then 1
      else if height_dom < 1 then
        ((height_dom - 1) * (suppressed_fact - 1)) / (0 - 1) + 1
      else 1 + (height_dom - 1) / ((number_species : ℝ) - 1) * (dominant_fact - 1))
  else none

/-- `opt_air_mass` from the source: two asserts, then the input angle is
multiplied by `DEG_TO_RAD` and used in the return expression. -/
noncomputable def opt_air_mass (atm_press solar_zenith_angle : ℝ) : Option ℝ :=
  if atm_press ≤ 101.3 ∧ 38 < atm_press then
    if 0 ≤ solar_zenith_angle then
      some (atm_press / (101.3 * Real.cos (solar_zenith_angle * (Real.pi / 180))))
    else none
  else none

/-- `solar_beam_fraction` from the source: range asserts, conversion of the
zenith angle to radians, then a call of `opt_air_mass` on the already
converted angle (which `opt_air_mass` converts once more), and the return
value `atm_transmittance ** optical_air_mass * cos(angle_rad)`. -/
noncomputable def solar_beam_fraction (atm_press solar_zenith_angle atm_transmittance : ℝ) :
    Option ℝ :=
  if 0 ≤ solar_zenith_angle ∧ solar_zenith_angle ≤ 90 then
    if 0 ≤ atm_transmittance ∧ atm_transmittance ≤ 1 then
      (opt_air_mass atm_press (solar_zenith_angle * (Real.pi / 180))).map
        (fun optical_air_mass =>
          atm_transmittance ^ optical_air_mass *
            Real.cos (solar_zenith_angle * (Real.pi / 180)))
    else none
  else none

/-- A species descriptor `(extinction_coeff, leaf_area_index, height)`;
the i-th entry of `crop_list` (default `(0,0,0)` is never used in range). -/
def sp (cl : List (ℝ × ℝ × ℝ)) (i : ℕ) : ℝ × ℝ × ℝ := cl.getD i (0, 0, 0)

/-- `transm_rad[i] = exp(-extinction_coeff[i] * leaf_area_index[i])`. -/
noncomputable def transm_rad (c : ℝ × ℝ × ℝ) : ℝ := Real.exp (-(c.1 * c.2.1))

/-- `k_lai_prod[i] = extinction_coeff[i] * leaf_area_index[i]`. -/
def k_lai_prod (c : ℝ × ℝ × ℝ) : ℝ := c.1 * c.2.1

/-- `total_transm`: running product of `transm_rad` over all species. -/
noncomputable def total_transm (cl : List (ℝ × ℝ × ℝ)) : ℝ := (cl.map transm_rad).prod

/-- `total_interception = 1 - total_transm`. -/
noncomputable def total_interception (cl : List (ℝ × ℝ × ℝ)) : ℝ := 1 - total_transm cl

/-- `height.sum()`. -/
def height_sum (cl : List (ℝ × ℝ × ℝ)) : ℝ := (cl.map (fun c => c.2.2)).sum

/-- `k_lai_prod.sum()`. -/
def k_lai_sum (cl : List (ℝ × ℝ × ℝ)) : ℝ := (cl.map k_lai_prod).sum

/-- `height_dom[i] = number_species * height[i] / height.sum()`. -/
noncomputable def height_dom (cl : List (ℝ × ℝ × ℝ)) (i : ℕ) : ℝ :=
  (cl.length : ℝ) * (sp cl i).2.2 / height_sum cl

/-- `transm_rad_others[i]`: product of `transm_rad[j]` over `j ≠ i`
(the source pops the i-th index from the index list and multiplies). -/
noncomputable def transm_rad_others (cl : List (ℝ × ℝ × ℝ)) (i : ℕ) : ℝ :=
  ((cl.eraseIdx i).map transm_rad).prod

/-- `rad_intercpt_dom[i] = 1 - transm_rad[i]`. -/
noncomputable def rad_intercpt_dom (cl : List (ℝ × ℝ × ℝ)) (i : ℕ) : ℝ :=
  1 - transm_rad (sp cl i)

/-- `rad_intercpt_suppr[i] = rad_intercpt_dom[i] * transm_rad_others[i]`. -/
noncomputable def rad_intercpt_suppr (cl : List (ℝ × ℝ × ℝ)) (i : ℕ) : ℝ :=
  rad_intercpt_dom cl i * transm_rad_others cl i

/-- `dominant_fact[i] = rad_intercpt_dom[i] / total_interception *
k_lai_prod.sum() / k_lai_prod[i]`. -/
noncomputable def dominant_fact (cl : List (ℝ × ℝ × ℝ)) (i : ℕ) : ℝ :=
  rad_intercpt_dom cl i / total_interception cl * k_lai_sum cl / k_lai_prod (sp cl i)

/-- `suppressed_fact[i] = rad_intercpt_suppr[i] / total_interception *
k_lai_prod.sum() / k_lai_prod[i]`. -/
noncomputable def suppressed_fact (cl : List (ℝ × ℝ × ℝ)) (i : ℕ) : ℝ :=
  rad_intercpt_suppr cl i / total_interception cl * k_lai_sum cl / k_lai_prod (sp cl i)

/-- Monadic map over `Option`: the source's `for` loop raises (overall
result `none`) as soon as one call fails. -/
def mapOrFail {α β : Type} (f : α → Option β) : List α → Option (List β)
  | [] => some []
  | a :: l => (f a).bind (fun b => (mapOrFail f l).bind (fun bs => some (b :: bs)))

/-- `rad_intercpt_cycles` from the source.  The loop computing
`hght_wght_fct[i]` calls `height_weight_fact` (which can raise) for every
species; afterwards `k_lai_prod_adj.sum()` and the final interception
formula `total_interception * hght_wght_fct_adj[i] * k_lai_prod[i] /
k_lai_prod.sum()` with `hght_wght_fct_adj[i] = hght_wght_fct[i] /
k_lai_prod_adj.sum() * k_lai_prod.sum()` are pure arithmetic. -/
noncomputable def rad_intercpt_cycles (cl : List (ℝ × ℝ × ℝ)) : Option (List ℝ) :=
  let number_species := cl.length
  (mapOrFail
      (fun i => height_weight_fact (height_dom cl i) (dominant_fact cl i)
        (suppressed_fact cl i) number_species)
      (List.range number_species)).bind
    (fun hght_wght_fct =>
      let k_lai_prod_adj_sum :=
        ((List.range number_species).map
          (fun i => k_lai_prod (sp cl i) * hght_wght_fct.getD i 0)).sum
      some ((List.range number_species).map
        (fun i => total_interception cl *
          (hght_wght_fct.getD i 0 / k_lai_prod_adj_sum * k_lai_sum cl) *
          k_lai_prod (sp cl i) / k_lai_sum cl)))

/-- `rad_intercpt_wallace` from the source: asserts exactly two species
(each descriptor's arity-3 check is enforced by the triple type), then
returns the two final interceptions. -/
noncomputable def rad_intercpt_wallace : List (ℝ × ℝ × ℝ) → Option (List ℝ)
  | [c1, c2] =>
    let transm_rad1 := Real.exp (-(c1.1 * c1.2.1))
    let transm_rad2 := Real.exp (-(c2.1 * c2.2.1))
    let rad_intercpt_dom1 := 1 - transm_rad1
    let rad_intercpt_dom2 := 1 - transm_rad2
    let height_fraction1 := c1.2.2 / (c1.2.2 + c2.2.2)
    let height_fraction2 := c2.2.2 / (c1.2.2 + c2.2.2)
    let rad_intercpt_suppr1 := rad_intercpt_dom1 * transm_rad2
    let rad_intercpt_suppr2 := rad_intercpt_dom2 * transm_rad1
    some [rad_intercpt_suppr1 + height_fraction1 * (rad_intercpt_dom1 - rad_intercpt_suppr1),
      rad_intercpt_suppr2 + height_fraction2 * (rad_intercpt_dom2 - rad_intercpt_suppr2)]
  | _ => none

/-- `rad_intercpt_apsim` from the source: `tot_rad_intercpt = 1 -
cum_transm_rad`, and each species receives `tot_rad_intercpt *
k_lai_prod[i] / k_lai_prod.sum()` when its stand-alone interception
`1 - transm_rad_temp[i]` is positive, else `0`. -/
noncomputable def rad_intercpt_apsim (cl : List (ℝ × ℝ)) : List ℝ :=
  let cum_transm_rad := (cl.map (fun c => Real.exp (-(c.1 * c.2)))).prod
  let tot_rad_intercpt := 1 - cum_transm_rad
  let prod_sum := (cl.map (fun c => c.1 * c.2)).sum
  cl.map (fun c =>
    if 0 < 1 - Real.exp (-(c.1 * c.2)) then
      tot_rad_intercpt * (c.1 * c.2) / prod_sum
    else 0)

/-- The value `height_weight_fact` returns when its assert passes, with the
`rad_intercpt_cycles` arguments plugged in. -/
noncomputable def hght_wght_val (cl : List (ℝ × ℝ × ℝ)) (i : ℕ) : ℝ :=
  if height_dom cl i = 1 then 1
  else if height_dom cl i < 1 then
    ((height_dom cl i - 1) * (suppressed_fact cl i - 1)) / (0 - 1) + 1
  else 1 + (height_dom cl i - 1) / ((cl.length : ℝ) - 1) * (dominant_fact cl i - 1)

/-- `k_lai_prod_adj.sum()` of the source, in terms of `hght_wght_val`. -/
noncomputable def k_lai_hw_sum (cl : List (ℝ × ℝ × ℝ)) : ℝ :=
  ((List.range cl.length).map (fun i => k_lai_prod (sp cl i) * hght_wght_val cl i)).sum

/-- The list `rad_intercpt_cycles` returns on inputs passing all asserts. -/
noncomputable def cyclesOut (cl : List (ℝ × ℝ × ℝ)) : List ℝ :=
  (List.range cl.length).map
    (fun i => total_interception cl *
      (hght_wght_val cl i / k_lai_hw_sum cl * k_lai_sum cl) *
      k_lai_prod (sp cl i) / k_lai_sum cl)

/-! ### List helper lemmas -/

lemma getD_mem {α : Type} : ∀ (l : List α) (i : ℕ) (d : α), i < l.length → l.getD i d ∈ l := by
  intro l
  induction l with
  | nil => intro i d h; simp at h
  | cons a t ih =>
    intro i d h
    cases i with
    | zero => simp
    | succ j =>
      rw [List.getD_cons_succ]
      exact List.mem_cons_of_mem _ (ih j d (by simpa using h))

lemma getD_map_of_lt {α β : Type} (f : α → β) (d : α) (e : β) :
    ∀ (l : List α) (i : ℕ), i < l.length → (l.map f).getD i e = f (l.getD i d) := by
  intro l
  induction l with
  | nil => intro i h; simp at h
  | cons a t ih =>
    intro i h
    cases i with
    | zero => simp
    | succ j =>
      rw [List.map_cons, List.getD_cons_succ, List.getD_cons_succ]
      exact ih j (by simpa using h)

lemma getD_range_map (f : ℕ → ℝ) {n i : ℕ} (h : i < n) :
    ((List.range n).map f).getD i 0 = f i := by
  rw [getD_map_of_lt f 0 0 _ i (by simpa using h)]
  congr 1
  rw [List.getD_eq_getElem?_getD]
  simp [h]

lemma list_sum_pos : ∀ {l : List ℝ}, l ≠ [] → (∀ x ∈ l, 0 < x) → 0 < l.sum := by
  intro l
  induction l with
  | nil => intro h; exact absurd rfl h
  | cons a t ih =>
    intro _ hx
    rw [List.sum_cons]
    rcases List.eq_nil_or_concat t with ht | _
    · subst ht; simpa using hx a (by simp)
    · have h1 : 0 < a := hx a (by simp)
      have h2 : 0 < t.sum := by
        refine ih ?_ (fun x hxt => hx x (List.mem_cons_of_mem _ hxt))
        rintro rfl
        simp_all
      linarith

lemma list_sum_nonneg : ∀ {l : List ℝ}, (∀ x ∈ l, 0 ≤ x) → 0 ≤ l.sum := by
  intro l
  induction l with
  | nil => simp
  | cons a t ih =>
    intro hx
    rw [List.sum_cons]
    have h1 : 0 ≤ a := hx a (by simp)
    have h2 : 0 ≤ t.sum := ih (fun x hxt => hx x (List.mem_cons_of_mem _ hxt))
    linarith

lemma list_el_le_sum : ∀ {l : List ℝ}, (∀ x ∈ l, 0 ≤ x) → ∀ {a : ℝ}, a ∈ l → a ≤ l.sum := by
  intro l
  induction l with
  | nil => intro _ a ha; simp at ha
  | cons b t ih =>
    intro hx a ha
    rw [List.sum_cons]
    have h2 : 0 ≤ t.sum := list_sum_nonneg (fun x hxt => hx x (List.mem_cons_of_mem _ hxt))
    rcases List.mem_cons.mp ha with rfl | hat
    · linarith
    · have h1 : 0 ≤ b := hx b (by simp)
      have := ih (fun x hxt => hx x (List.mem_cons_of_mem _ hxt)) hat
      linarith

lemma list_prod_pos : ∀ {l : List ℝ}, (∀ x ∈ l, 0 < x) → 0 < l.prod := by
  intro l
  induction l with
  | nil => simp
  | cons a t ih =>
    intro hx
    rw [List.prod_cons]
    exact mul_pos (hx a (by simp)) (ih (fun x hxt => hx x (List.mem_cons_of_mem _ hxt)))

lemma list_prod_lt_one : ∀ {l : List ℝ}, l ≠ [] → (∀ x ∈ l, 0 < x) → (∀ x ∈ l, x < 1) →
    l.prod < 1 := by
  intro l
  induction l with
  | nil => intro h; exact absurd rfl h
  | cons a t ih =>
    intro _ hp h1
    rw [List.prod_cons]
    have ha : 0 < a := hp a (by simp)
    have ha1 : a < 1 := h1 a (by simp)
    rcases List.eq_nil_or_concat t with ht | _
    · subst ht; simpa using ha1
    · have htp : 0 < t.prod := list_prod_pos (fun x hxt => hp x (List.mem_cons_of_mem _ hxt))
      have ht1 : t.prod < 1 := by
        refine ih ?_ (fun x hxt => hp x (List.mem_cons_of_mem _ hxt))
          (fun x hxt => h1 x (List.mem_cons_of_mem _ hxt))
        rintro rfl
        simp_all
      nlinarith

lemma list_prod_le_one : ∀ {l : List ℝ}, (∀ x ∈ l, 0 < x) → (∀ x ∈ l, x < 1) →
    l.prod ≤ 1 := by
  intro l hp h1
  rcases List.eq_nil_or_concat l with hl | _
  · subst hl; simp
  · exact le_of_lt (list_prod_lt_one (by rintro rfl; simp_all) hp h1)

lemma list_sum_map_range (f : ℕ → ℝ) : ∀ n : ℕ,
    ((List.range n).map f).sum = ∑ i ∈ Finset.range n, f i := by
  intro n
  induction n with
  | zero => simp
  | succ m ih =>
    rw [List.range_succ, List.map_append, List.sum_append, Finset.sum_range_succ, ih]
    simp

lemma mapOrFail_eq_some_map {α β : Type} (f : α → Option β) (g : α → β) :
    ∀ (l : List α), (∀ a ∈ l, f a = some (g a)) → mapOrFail f l = some (l.map g) := by
  intro l
  induction l with
  | nil => intro _; rfl
  | cons a t ih =>
    intro h
    rw [mapOrFail, h a (by simp), ih (fun x hx => h x (List.mem_cons_of_mem _ hx))]
    rfl

lemma mapOrFail_eq_none {α β : Type} (f : α → Option β) :
    ∀ {l : List α} {a : α}, a ∈ l → f a = none → mapOrFail f l = none := by
  intro l
  induction l with
  | nil => intro a ha; simp at ha
  | cons b t ih =>
    intro a ha hfa
    rw [mapOrFail]
    rcases List.mem_cons.mp ha with rfl | hat
    · rw [hfa]; rfl
    · rw [ih hat hfa]
      cases f b <;> rfl

/-! ### Elementary real-analysis helpers -/

lemma exp_neg_lt_one {p : ℝ} (hp : 0 < p) : Real.exp (-p) < 1 :=
  Real.exp_lt_one_iff.mpr (by linarith)

/-- `(1 - exp (-x)) / x` is antitone: the key inequality behind
`dominant_fact ≥ 1` in the Cycles model. -/
lemma one_sub_exp_mul_le {p t : ℝ} (hp : 0 < p) (ht : 0 ≤ t) :
    (1 - Real.exp (-(p + t))) * p ≤ (1 - Real.exp (-p)) * (p + t) := by
  set e := Real.exp (-p) with he
  set f := Real.exp (-t) with hf
  have hep : 0 < e := Real.exp_pos _
  have hfp : 0 < f := Real.exp_pos _
  have hsplit : Real.exp (-(p + t)) = e * f := by
    rw [he, hf, ← Real.exp_add]; ring_nf
  have h1 : p * e ≤ 1 - e := by
    have hx : p + 1 ≤ Real.exp p := Real.add_one_le_exp p
    have hinv : e * Real.exp p = 1 := by
      rw [he, ← Real.exp_add]; simp
    nlinarith
  have h2 : 1 - f ≤ t := by
    have hx : -t + 1 ≤ f := Real.add_one_le_exp (-t)
    linarith
  rw [hsplit]
  have h3 : p * e * (1 - f) ≤ p * e * t := by
    apply mul_le_mul_of_nonneg_left h2
    positivity
  have h4 : p * e * t ≤ (1 - e) * t := by
    apply mul_le_mul_of_nonneg_right h1 ht
  nlinarith

/-! ### Cycles model: success and exact output description -/

lemma sp_mem {cl : List (ℝ × ℝ × ℝ)} {i : ℕ} (h : i < cl.length) : sp cl i ∈ cl :=
  getD_mem cl i _ h

lemma map_transm_prod : ∀ cl : List (ℝ × ℝ × ℝ),
    (cl.map transm_rad).prod = Real.exp (-(cl.map k_lai_prod).sum) := by
  intro cl
  induction cl with
  | nil => simp
  | cons c t ih =>
    rw [List.map_cons, List.prod_cons, List.map_cons, List.sum_cons, neg_add, Real.exp_add, ih]
    rfl

lemma total_transm_eq (cl : List (ℝ × ℝ × ℝ)) :
    total_transm cl = Real.exp (-(k_lai_sum cl)) :=
  map_transm_prod cl

/-- All facts about a Cycles run on a valid input: the call succeeds with
output `cyclesOut cl`, whose sum is exactly `total_interception cl` and
whose entries all lie in `[0, total_interception cl]`. -/
lemma cycles_core (cl : List (ℝ × ℝ × ℝ)) (hne : cl ≠ [])
    (hp : ∀ c ∈ cl, 0 < c.1 * c.2.1) (hh : ∀ c ∈ cl, 0 < c.2.2) :
    rad_intercpt_cycles cl = some (cyclesOut cl) ∧
    (cyclesOut cl).sum = total_interception cl ∧
    (∀ r ∈ cyclesOut cl, 0 ≤ r ∧ r ≤ total_interception cl) ∧
    0 < total_interception cl := by
  have hlen : 0 < cl.length := List.length_pos.mpr hne
  have hmapne : cl.map transm_rad ≠ [] := fun h => hne (List.map_eq_nil.mp h)
  have htt_pos : 0 < total_transm cl := by
    refine list_prod_pos ?_
    intro x hx
    obtain ⟨c, _, rfl⟩ := List.mem_map.mp hx
    exact Real.exp_pos _
  have htt_lt : total_transm cl < 1 := by
    refine list_prod_lt_one hmapne ?_ ?_
    · intro x hx
      obtain ⟨c, _, rfl⟩ := List.mem_map.mp hx
      exact Real.exp_pos _
    · intro x hx
      obtain ⟨c, hc, rfl⟩ := List.mem_map.mp hx
      exact exp_neg_lt_one (hp c hc)
  have hI : 0 < total_interception cl := by
    unfold total_interception; linarith
  have hP : 0 < k_lai_sum cl := by
    refine list_sum_pos (fun h => hne (List.map_eq_nil.mp h)) ?_
    intro x hx
    obtain ⟨c, hc, rfl⟩ := List.mem_map.mp hx
    exact hp c hc
  have hpi : ∀ i, i < cl.length → 0 < k_lai_prod (sp cl i) := fun i hi => hp _ (sp_mem hi)
  have hhi : ∀ i, i < cl.length → 0 < (sp cl i).2.2 := fun i hi => hh _ (sp_mem hi)
  have hhs : 0 < height_sum cl := by
    refine list_sum_pos (fun h => hne (List.map_eq_nil.mp h)) ?_
    intro x hx
    obtain ⟨c, hc, rfl⟩ := List.mem_map.mp hx
    exact hh c hc
  have hH : ∀ i, i < cl.length → 0 < height_dom cl i := by
    intro i hi
    unfold height_dom
    have hn : (0:ℝ) < (cl.length : ℝ) := by exact_mod_cast hlen
    exact div_pos (mul_pos hn (hhi i hi)) hhs
  have hD : ∀ i, i < cl.length → 0 < rad_intercpt_dom cl i := by
    intro i hi
    unfold rad_intercpt_dom
    have := exp_neg_lt_one (hpi i hi)
    unfold transm_rad
    unfold k_lai_prod at this
    linarith
  have hO : ∀ i, 0 < transm_rad_others cl i := by
    intro i
    refine list_prod_pos ?_
    intro x hx
    obtain ⟨c, _, rfl⟩ := List.mem_map.mp hx
    exact Real.exp_pos _
  have hS : ∀ i, i < cl.length → 0 < rad_intercpt_suppr cl i := by
    intro i hi
    exact mul_pos (hD i hi) (hO i)
  have hdomf : ∀ i, i < cl.length → 0 < dominant_fact cl i := by
    intro i hi
    exact div_pos (mul_pos (div_pos (hD i hi) hI) hP) (hpi i hi)
  have hsupf : ∀ i, i < cl.length → 0 < suppressed_fact cl i := by
    intro i hi
    exact div_pos (mul_pos (div_pos (hS i hi) hI) hP) (hpi i hi)
  have hdom1 : ∀ i, i < cl.length → 1 ≤ dominant_fact cl i := by
    intro i hi
    have hple : k_lai_prod (sp cl i) ≤ k_lai_sum cl := by
      refine list_el_le_sum ?_ (List.mem_map.mpr ⟨sp cl i, sp_mem hi, rfl⟩)
      intro x hx
      obtain ⟨c, hc, rfl⟩ := List.mem_map.mp hx
      exact (hp c hc).le
    have hkey := one_sub_exp_mul_le (hpi i hi)
      (sub_nonneg.mpr hple)
    have hsum : k_lai_prod (sp cl i) + (k_lai_sum cl - k_lai_prod (sp cl i)) = k_lai_sum cl := by
      ring
    rw [hsum] at hkey
    have hform : dominant_fact cl i =
        ((1 - transm_rad (sp cl i)) * k_lai_sum cl) /
          (total_interception cl * k_lai_prod (sp cl i)) := by
      unfold dominant_fact rad_intercpt_dom
      ring
    rw [hform, le_div_iff (mul_pos hI (hpi i hi)), one_mul]
    have hIeq : total_interception cl = 1 - Real.exp (-(k_lai_sum cl)) := by
      unfold total_interception
      rw [total_transm_eq]
    have htr : transm_rad (sp cl i) = Real.exp (-(k_lai_prod (sp cl i))) := rfl
    rw [hIeq, htr]
    nlinarith [hkey]
  have hval : ∀ i, i < cl.length → 0 < hght_wght_val cl i := by
    intro i hi
    unfold hght_wght_val
    split_ifs with h1 h2
    · norm_num
    · have heq : ((height_dom cl i - 1) * (suppressed_fact cl i - 1)) / (0 - 1) + 1 =
          height_dom cl i + suppressed_fact cl i * (1 - height_dom cl i) := by
        ring
      rw [heq]
      nlinarith [hH i hi, hsupf i hi, h2]
    · have hgt : 1 < height_dom cl i := lt_of_le_of_ne (not_lt.mp h2) (Ne.symm h1)
      have hn2 : 2 ≤ cl.length := by
        by_contra hcon
        have h1' : cl.length = 1 := by omega
        obtain ⟨c, hc⟩ := List.length_eq_one.mp h1'
        subst hc
        have hi0 : i = 0 := by omega
        subst hi0
        have : height_dom [c] 0 = 1 := by
          unfold height_dom height_sum sp
          have hcne : c.2.2 ≠ 0 := ne_of_gt (hh c (by simp))
          simp [hcne]
        rw [this] at hgt
        exact absurd hgt (by norm_num)
      have hn2R : (2:ℝ) ≤ (cl.length : ℝ) := by exact_mod_cast hn2
      have hnn : 0 ≤ (height_dom cl i - 1) / ((cl.length : ℝ) - 1) * (dominant_fact cl i - 1) := by
        refine mul_nonneg (div_nonneg (by linarith) (by linarith)) ?_
        linarith [hdom1 i hi]
      linarith
  have hA : 0 < k_lai_hw_sum cl := by
    unfold k_lai_hw_sum
    refine list_sum_pos ?_ ?_
    · have : List.range cl.length ≠ [] := by
        intro h
        rw [List.range_eq_nil] at h
        omega
      intro h
      exact this (List.map_eq_nil.mp h)
    · intro x hx
      obtain ⟨i, hi, rfl⟩ := List.mem_map.mp hx
      rw [List.mem_range] at hi
      exact mul_pos (hpi i hi) (hval i hi)
  have hwsome : ∀ i ∈ List.range cl.length,
      height_weight_fact (height_dom cl i) (dominant_fact cl i) (suppressed_fact cl i)
        cl.length = some (hght_wght_val cl i) := by
    intro i hi
    rw [List.mem_range] at hi
    have hcond : (if height_dom cl i = 0 then height_dom cl i
        else if dominant_fact cl i = 0 then dominant_fact cl i
        else if suppressed_fact cl i = 0 then suppressed_fact cl i
        else ((cl.length : ℕ) : ℝ)) > 0 := by
      rw [if_neg (ne_of_gt (hH i hi)), if_neg (ne_of_gt (hdomf i hi)),
        if_neg (ne_of_gt (hsupf i hi))]
      exact_mod_cast hlen
    unfold height_weight_fact
    rw [if_pos hcond]
    rfl
  have hmap := mapOrFail_eq_some_map
    (fun i => height_weight_fact (height_dom cl i) (dominant_fact cl i)
      (suppressed_fact cl i) cl.length)
    (fun i => hght_wght_val cl i) (List.range cl.length) hwsome
  have hsome : rad_intercpt_cycles cl = some (cyclesOut cl) := by
    have hunf : rad_intercpt_cycles cl =
        (mapOrFail (fun i => height_weight_fact (height_dom cl i) (dominant_fact cl i)
            (suppressed_fact cl i) cl.length) (List.range cl.length)).bind
          (fun hght_wght_fct =>
            some ((List.range cl.length).map
              (fun i => total_interception cl *
                (hght_wght_fct.getD i 0 /
                  ((List.range cl.length).map
                    (fun j => k_lai_prod (sp cl j) * hght_wght_fct.getD j 0)).sum *
                  k_lai_sum cl) *
                k_lai_prod (sp cl i) / k_lai_sum cl))) := rfl
    rw [hunf, hmap, Option.some_bind]
    congr 1
    unfold cyclesOut
    have hAeq : ((List.range cl.length).map (fun i => k_lai_prod (sp cl i) *
        ((List.range cl.length).map (fun j => hght_wght_val cl j)).getD i 0)).sum =
        k_lai_hw_sum cl := by
      unfold k_lai_hw_sum
      congr 1
      refine List.map_congr_left ?_
      intro i hi
      rw [getD_range_map _ (List.mem_range.mp hi)]
    refine List.map_congr_left ?_
    intro i hi
    rw [getD_range_map _ (List.mem_range.mp hi), hAeq]
  have hterm : ∀ i, total_interception cl *
      (hght_wght_val cl i / k_lai_hw_sum cl * k_lai_sum cl) *
      k_lai_prod (sp cl i) / k_lai_sum cl =
      (total_interception cl / k_lai_hw_sum cl) *
        (k_lai_prod (sp cl i) * hght_wght_val cl i) := by
    intro i
    field_simp
    ring
  have hsum : (cyclesOut cl).sum = total_interception cl := by
    unfold cyclesOut
    rw [list_sum_map_range]
    rw [Finset.sum_congr rfl (fun i _ => hterm i), ← Finset.mul_sum]
    have : ∑ i ∈ Finset.range cl.length, k_lai_prod (sp cl i) * hght_wght_val cl i =
        k_lai_hw_sum cl := by
      unfold k_lai_hw_sum
      rw [list_sum_map_range]
    rw [this, div_mul_cancel₀ _ (ne_of_gt hA)]
  refine ⟨hsome, hsum, ?_, hI⟩
  intro r hr
  obtain ⟨i, hi, rfl⟩ := List.mem_map.mp hr
  rw [List.mem_range] at hi
  rw [hterm i]
  constructor
  · have := hpi i hi
    have := hval i hi
    positivity
  · have hsingle : k_lai_prod (sp cl i) * hght_wght_val cl i ≤ k_lai_hw_sum cl := by
      have : k_lai_hw_sum cl = ∑ j ∈ Finset.range cl.length,
          k_lai_prod (sp cl j) * hght_wght_val cl j := by
        unfold k_lai_hw_sum
        rw [list_sum_map_range]
      rw [this]
      refine Finset.single_le_sum (f := fun j => k_lai_prod (sp cl j) * hght_wght_val cl j)
        ?_ (Finset.mem_range.mpr hi)
      intro j hj
      rw [Finset.mem_range] at hj
      exact (mul_pos (hpi j hj) (hval j hj)).le
    calc (total_interception cl / k_lai_hw_sum cl) *
        (k_lai_prod (sp cl i) * hght_wght_val cl i) =
        total_interception cl * ((k_lai_prod (sp cl i) * hght_wght_val cl i) / k_lai_hw_sum cl) := by
          ring
      _ ≤ total_interception cl * 1 := by
          refine mul_le_mul_of_nonneg_left ?_ hI.le
          exact (div_le_one hA).mpr hsingle
      _ = total_interception cl := mul_one _

lemma rad_intercpt_cycles_unfold (cl : List (ℝ × ℝ × ℝ)) :
    rad_intercpt_cycles cl =
      (mapOrFail (fun i => height_weight_fact (height_dom cl i) (dominant_fact cl i)
          (suppressed_fact cl i) cl.length) (List.range cl.length)).bind
        (fun hght_wght_fct =>
          some ((List.range cl.length).map
            (fun i => total_interception cl *
              (hght_wght_fct.getD i 0 /
                ((List.range cl.length).map
                  (fun j => k_lai_prod (sp cl j) * hght_wght_fct.getD j 0)).sum *
                k_lai_sum cl) *
              k_lai_prod (sp cl i) / k_lai_sum cl))) := rfl

lemma total_interception_expand (cl : List (ℝ × ℝ × ℝ)) :
    total_interception cl = 1 - (cl.map (fun c => Real.exp (-(c.1 * c.2.1)))).prod := rfl

/-! ### APSIM model helpers -/

lemma list_sum_map_mul_left {α : Type} (a : ℝ) (f : α → ℝ) :
    ∀ l : List α, (l.map (fun x => a * f x)).sum = a * (l.map f).sum := by
  intro l
  induction l with
  | nil => simp
  | cons b t ih =>
    rw [List.map_cons, List.sum_cons, List.map_cons, List.sum_cons, ih]
    ring

lemma rad_intercpt_apsim_unfold (cl : List (ℝ × ℝ)) :
    rad_intercpt_apsim cl = cl.map (fun c =>
      if 0 < 1 - Real.exp (-(c.1 * c.2)) then
        (1 - (cl.map (fun d => Real.exp (-(d.1 * d.2)))).prod) * (c.1 * c.2) /
          (cl.map (fun d => d.1 * d.2)).sum
      else 0) := rfl

lemma apsim_all_pos_map (cl : List (ℝ × ℝ)) (hp : ∀ c ∈ cl, 0 < c.1 * c.2) :
    rad_intercpt_apsim cl = cl.map (fun c =>
      ((1 - (cl.map (fun d => Real.exp (-(d.1 * d.2)))).prod) /
        (cl.map (fun d => d.1 * d.2)).sum) * (c.1 * c.2)) := by
  rw [rad_intercpt_apsim_unfold]
  refine List.map_congr_left ?_
  intro c hc
  rw [if_pos (by linarith [exp_neg_lt_one (hp c hc)])]
  ring

lemma apsim_sum_eq (cl : List (ℝ × ℝ)) (hne : cl ≠ []) (hp : ∀ c ∈ cl, 0 < c.1 * c.2) :
    (rad_intercpt_apsim cl).sum = 1 - (cl.map (fun c => Real.exp (-(c.1 * c.2)))).prod := by
  have hP : 0 < (cl.map (fun d => d.1 * d.2)).sum := by
    refine list_sum_pos (fun h => hne (List.map_eq_nil.mp h)) ?_
    intro x hx
    obtain ⟨c, hc, rfl⟩ := List.mem_map.mp hx
    exact hp c hc
  rw [apsim_all_pos_map cl hp, list_sum_map_mul_left, div_mul_cancel₀ _ (ne_of_gt hP)]

/-! ### Claim C1 -/

/-- Claim C1: for a species list of N ≥ 1 valid descriptors (all
`k·LAI > 0`, all heights positive, hence positive height sum), the Cycles
model returns per-species interceptions whose sum equals the canopy
aggregate interception `1 - ∏ exp(-kᵢ·LAIᵢ)` exactly, and in particular to
within the claimed tolerance `1e-9`. -/
theorem cycles_sum_eq_total_interception (cl : List (ℝ × ℝ × ℝ)) (hne : cl ≠ [])
    (hp : ∀ c ∈ cl, 0 < c.1 * c.2.1) (hh : ∀ c ∈ cl, 0 < c.2.2) :
    ∃ out, rad_intercpt_cycles cl = some out ∧
      out.sum = 1 - (cl.map (fun c => Real.exp (-(c.1 * c.2.1)))).prod ∧
      |out.sum - (1 - (cl.map (fun c => Real.exp (-(c.1 * c.2.1)))).prod)| ≤ 1 / 1000000000 := by
  obtain ⟨h1, h2, _, _⟩ := cycles_core cl hne hp hh
  rw [total_interception_expand] at h2
  refine ⟨cyclesOut cl, h1, h2, ?_⟩
  rw [h2, sub_self, abs_zero]
  norm_num

/-- Witness for C1 at the single-species list `[(1, 1, 1)]`. -/
theorem cycles_sum_eq_total_interception_witness :
    (([((1:ℝ), (1:ℝ), (1:ℝ))] : List (ℝ × ℝ × ℝ)) ≠ []) ∧
    (∀ c ∈ ([((1:ℝ), (1:ℝ), (1:ℝ))] : List (ℝ × ℝ × ℝ)), 0 < c.1 * c.2.1) ∧
    (∀ c ∈ ([((1:ℝ), (1:ℝ), (1:ℝ))] : List (ℝ × ℝ × ℝ)), 0 < c.2.2) ∧
    (∃ out, rad_intercpt_cycles [((1:ℝ), (1:ℝ), (1:ℝ))] = some out ∧
      out.sum = 1 - (([((1:ℝ), (1:ℝ), (1:ℝ))] : List (ℝ × ℝ × ℝ)).map
        (fun c => Real.exp (-(c.1 * c.2.1)))).prod ∧
      |out.sum - (1 - (([((1:ℝ), (1:ℝ), (1:ℝ))] : List (ℝ × ℝ × ℝ)).map
        (fun c => Real.exp (-(c.1 * c.2.1)))).prod)| ≤ 1 / 1000000000) := by
  have hp : ∀ c ∈ ([((1:ℝ), (1:ℝ), (1:ℝ))] : List (ℝ × ℝ × ℝ)), 0 < c.1 * c.2.1 := by
    intro c hc
    rw [List.mem_singleton] at hc
    subst hc
    norm_num
  have hh : ∀ c ∈ ([((1:ℝ), (1:ℝ), (1:ℝ))] : List (ℝ × ℝ × ℝ)), 0 < c.2.2 := by
    intro c hc
    rw [List.mem_singleton] at hc
    subst hc
    norm_num
  exact ⟨by simp, hp, hh, cycles_sum_eq_total_interception _ (by simp) hp hh⟩

/-! ### Claim C7 -/

/-- Counterexample to claim C7: on the empty species list
`rad_intercpt_cycles` does not fail; it returns an empty array. -/
theorem cycles_empty_list_returns_empty :
    rad_intercpt_cycles ([] : List (ℝ × ℝ × ℝ)) = some [] ∧
    rad_intercpt_cycles ([] : List (ℝ × ℝ × ℝ)) ≠ none := by
  refine ⟨rfl, ?_⟩
  rw [show rad_intercpt_cycles ([] : List (ℝ × ℝ × ℝ)) = some [] from rfl]
  simp

/-- Amended C7: the empty list yields an empty result without failing,
while (with a positive height sum, the regime in which the real-valued
model matches the float code) a species of height exactly `0` makes the
height-dominance factor `0`, which trips the assert in
`height_weight_fact`. -/
theorem cycles_failure_conditions_amended :
    (rad_intercpt_cycles ([] : List (ℝ × ℝ × ℝ)) = some []) ∧
    (∀ cl : List (ℝ × ℝ × ℝ), 0 < height_sum cl → (∃ c ∈ cl, c.2.2 = 0) →
      rad_intercpt_cycles cl = none) := by
  refine ⟨rfl, ?_⟩
  rintro cl _hhs ⟨c, hc, hc0⟩
  obtain ⟨i, hi⟩ := List.mem_iff_get.mp hc
  have hsp : sp cl i = c := by
    unfold sp
    rw [List.getD_eq_getElem?_getD, List.getElem?_eq_getElem i.isLt]
    simpa using hi
  have hH0 : height_dom cl i = 0 := by
    unfold height_dom
    have h0 : (sp cl i).2.2 = 0 := by rw [hsp, hc0]
    rw [h0, mul_zero, zero_div]
  have hfnone : height_weight_fact (height_dom cl i) (dominant_fact cl i)
      (suppressed_fact cl i) cl.length = none := by
    unfold height_weight_fact
    rw [hH0]
    have hcond : ¬((if (0:ℝ) = 0 then (0:ℝ)
        else if dominant_fact cl i = 0 then dominant_fact cl i
        else if suppressed_fact cl i = 0 then suppressed_fact cl i
        else ((cl.length : ℕ) : ℝ)) > 0) := by
      rw [if_pos rfl]
      norm_num
    rw [if_neg hcond]
  have hnone := mapOrFail_eq_none
    (fun j => height_weight_fact (height_dom cl j) (dominant_fact cl j)
      (suppressed_fact cl j) cl.length)
    (List.mem_range.mpr i.isLt) hfnone
  rw [rad_intercpt_cycles_unfold, hnone]
  rfl

/-- Witness for amended C7 at `[(1,1,0), (1,1,1)]`. -/
theorem cycles_failure_conditions_amended_witness :
    (0 < height_sum [((1:ℝ), (1:ℝ), (0:ℝ)), ((1:ℝ), (1:ℝ), (1:ℝ))]) ∧
    (∃ c ∈ ([((1:ℝ), (1:ℝ), (0:ℝ)), ((1:ℝ), (1:ℝ), (1:ℝ))] : List (ℝ × ℝ × ℝ)), c.2.2 = 0) ∧
    rad_intercpt_cycles [((1:ℝ), (1:ℝ), (0:ℝ)), ((1:ℝ), (1:ℝ), (1:ℝ))] = none := by
  have h1 : 0 < height_sum [((1:ℝ), (1:ℝ), (0:ℝ)), ((1:ℝ), (1:ℝ), (1:ℝ))] := by
    norm_num [height_sum]
  have h2 : ∃ c ∈ ([((1:ℝ), (1:ℝ), (0:ℝ)), ((1:ℝ), (1:ℝ), (1:ℝ))] : List (ℝ × ℝ × ℝ)),
      c.2.2 = 0 := ⟨((1:ℝ), (1:ℝ), (0:ℝ)), by simp, rfl⟩
  exact ⟨h1, h2, cycles_failure_conditions_amended.2 _ h1 h2⟩

/-! ### Claim C9 -/

/-- Counterexample to claim C9: the Wallace model does not reduce to
`1 - exp(-k·LAI)` on a single species; it fails (the two-species assert). -/
theorem wallace_single_species_fails :
    rad_intercpt_wallace [((1:ℝ)/2, (1:ℝ), (1:ℝ))] = none := rfl

/-- Amended C9: with one valid species, Cycles and APSIM both return the
single interception `1 - exp(-k·LAI)`; Wallace rejects singleton lists. -/
theorem single_species_reduction_amended :
    (∀ k l h : ℝ, 0 < k → 0 < l → 0 < h →
      rad_intercpt_cycles [(k, l, h)] = some [1 - Real.exp (-(k * l))]) ∧
    (∀ k l : ℝ, 0 < k → 0 < l →
      rad_intercpt_apsim [(k, l)] = [1 - Real.exp (-(k * l))]) ∧
    (∀ k l h : ℝ, rad_intercpt_wallace [(k, l, h)] = none) := by
  refine ⟨?_, ?_, fun k l h => rfl⟩
  · intro k l h hk hl hh
    have hkl : (0:ℝ) < k * l := mul_pos hk hl
    have hp : ∀ c ∈ ([(k, l, h)] : List (ℝ × ℝ × ℝ)), 0 < c.1 * c.2.1 := by
      intro c hc
      rw [List.mem_singleton] at hc
      subst hc
      exact hkl
    have hhh : ∀ c ∈ ([(k, l, h)] : List (ℝ × ℝ × ℝ)), 0 < c.2.2 := by
      intro c hc
      rw [List.mem_singleton] at hc
      subst hc
      exact hh
    obtain ⟨h1, _, _, _⟩ := cycles_core _ (by simp) hp hhh
    rw [h1]
    congr 1
    unfold cyclesOut
    rw [show List.range (List.length [(k, l, h)]) = [0] from rfl]
    rw [List.map_cons, List.map_nil]
    congr 1
    have hH1 : height_dom [(k, l, h)] 0 = 1 := by
      unfold height_dom height_sum sp
      simp only [List.map_cons, List.map_nil, List.sum_cons, List.sum_nil, List.length_cons,
        List.length_nil, List.getD_cons_zero]
      rw [add_zero]
      push_cast
      field_simp
    have hv : hght_wght_val [(k, l, h)] 0 = 1 := by
      unfold hght_wght_val
      rw [if_pos hH1]
    have hAval : k_lai_hw_sum [(k, l, h)] = k * l := by
      unfold k_lai_hw_sum
      rw [show List.range (List.length [(k, l, h)]) = [0] from rfl]
      rw [List.map_cons, List.map_nil, List.sum_cons, List.sum_nil, hv]
      show k_lai_prod (sp [(k, l, h)] 0) * 1 + 0 = k * l
      rw [show sp [(k, l, h)] 0 = (k, l, h) from rfl]
      show k * l * 1 + 0 = k * l
      ring
    have hPval : k_lai_sum [(k, l, h)] = k * l := by
      unfold k_lai_sum
      rw [List.map_cons, List.map_nil, List.sum_cons, List.sum_nil]
      show k * l + 0 = k * l
      ring
    have hIval : total_interception [(k, l, h)] = 1 - Real.exp (-(k * l)) := by
      unfold total_interception total_transm
      rw [List.map_cons, List.map_nil, List.prod_cons, List.prod_nil]
      show 1 - Real.exp (-(k * l)) * 1 = 1 - Real.exp (-(k * l))
      ring
    rw [hv, hAval, hPval, hIval]
    show (1 - Real.exp (-(k * l))) * (1 / (k * l) * (k * l)) * (k * l) / (k * l) =
      1 - Real.exp (-(k * l))
    field_simp
  · intro k l hk hl
    have hkl : (0:ℝ) < k * l := mul_pos hk hl
    rw [rad_intercpt_apsim_unfold]
    rw [List.map_cons, List.map_nil]
    congr 1
    rw [if_pos (by linarith [exp_neg_lt_one hkl])]
    show (1 - (([(k, l)] : List (ℝ × ℝ)).map (fun d => Real.exp (-(d.1 * d.2)))).prod) *
      (k * l) / (([(k, l)] : List (ℝ × ℝ)).map (fun d => d.1 * d.2)).sum =
      1 - Real.exp (-(k * l))
    rw [List.map_cons, List.map_nil, List.prod_cons, List.prod_nil,
      List.map_cons, List.map_nil, List.sum_cons, List.sum_nil]
    show (1 - Real.exp (-(k * l)) * 1) * (k * l) / (k * l + 0) = 1 - Real.exp (-(k * l))
    field_simp

/-- Witness for amended C9 at `k = l = h = 1`. -/
theorem single_species_reduction_amended_witness :
    ((0:ℝ) < 1) ∧
    rad_intercpt_cycles [((1:ℝ), (1:ℝ), (1:ℝ))] = some [1 - Real.exp (-((1:ℝ) * 1))] ∧
    rad_intercpt_apsim [((1:ℝ), (1:ℝ))] = [1 - Real.exp (-((1:ℝ) * 1))] ∧
    rad_intercpt_wallace [((1:ℝ), (1:ℝ), (1:ℝ))] = none :=
  ⟨by norm_num,
    single_species_reduction_amended.1 1 1 1 (by norm_num) (by norm_num) (by norm_num),
    single_species_reduction_amended.2.1 1 1 (by norm_num) (by norm_num),
    single_species_reduction_amended.2.2 1 1 1⟩

/-! ### Claim C2 -/

/-- Claim C2: APSIM gives species `i` the share
`I_total * (kᵢ·LAIᵢ) / Σⱼ(kⱼ·LAIⱼ)` when its stand-alone interception is
positive and `0` otherwise, and with every `kᵢ·LAIᵢ > 0` the outputs sum
exactly to `I_total = 1 - ∏ⱼ exp(-kⱼ·LAIⱼ)`. -/
theorem apsim_share_formula_and_sum (cl : List (ℝ × ℝ)) (hN : 1 ≤ cl.length) :
    (∀ i, i < cl.length →
      (rad_intercpt_apsim cl).getD i 0 =
        if 0 < 1 - Real.exp (-((cl.getD i (0, 0)).1 * (cl.getD i (0, 0)).2)) then
          (1 - (cl.map (fun c => Real.exp (-(c.1 * c.2)))).prod) *
            ((cl.getD i (0, 0)).1 * (cl.getD i (0, 0)).2) /
            (cl.map (fun c => c.1 * c.2)).sum
        else 0) ∧
    ((∀ c ∈ cl, 0 < c.1 * c.2) →
      (rad_intercpt_apsim cl).sum = 1 - (cl.map (fun c => Real.exp (-(c.1 * c.2)))).prod) := by
  constructor
  · intro i hi
    rw [rad_intercpt_apsim_unfold]
    exact getD_map_of_lt _ (0, 0) 0 cl i hi
  · intro hp
    have hne : cl ≠ [] := by
      intro h
      subst h
      simp at hN
    exact apsim_sum_eq cl hne hp

/-- Witness for C2 at the one-species list `[(1, 1)]`. -/
theorem apsim_share_formula_and_sum_witness :
    (1 ≤ ([((1:ℝ), (1:ℝ))] : List (ℝ × ℝ)).length) ∧
    ((∀ c ∈ ([((1:ℝ), (1:ℝ))] : List (ℝ × ℝ)), 0 < c.1 * c.2) →
      (rad_intercpt_apsim [((1:ℝ), (1:ℝ))]).sum =
        1 - (([((1:ℝ), (1:ℝ))] : List (ℝ × ℝ)).map (fun c => Real.exp (-(c.1 * c.2)))).prod) :=
  ⟨by norm_num, (apsim_share_formula_and_sum _ (by norm_num)).2⟩

/-! ### Claim C10 -/

/-- Claim C10: for two species with positive heights, the two Wallace
interceptions sum exactly to the canopy aggregate
`1 - exp(-k₁·LAI₁)·exp(-k₂·LAI₂)`; moreover both dominant-minus-suppressed
gaps equal `D₁·D₂` and the height fractions sum to `1`. -/
theorem wallace_sum_exact (k1 l1 h1 k2 l2 h2 : ℝ) (hh1 : 0 < h1) (hh2 : 0 < h2) :
    ∃ r1 r2, rad_intercpt_wallace [(k1, l1, h1), (k2, l2, h2)] = some [r1, r2] ∧
      r1 + r2 = 1 - Real.exp (-(k1 * l1)) * Real.exp (-(k2 * l2)) ∧
      (1 - Real.exp (-(k1 * l1))) - (1 - Real.exp (-(k1 * l1))) * Real.exp (-(k2 * l2)) =
        (1 - Real.exp (-(k1 * l1))) * (1 - Real.exp (-(k2 * l2))) ∧
      (1 - Real.exp (-(k2 * l2))) - (1 - Real.exp (-(k2 * l2))) * Real.exp (-(k1 * l1)) =
        (1 - Real.exp (-(k1 * l1))) * (1 - Real.exp (-(k2 * l2))) ∧
      h1 / (h1 + h2) + h2 / (h1 + h2) = 1 := by
  have hs : (0:ℝ) < h1 + h2 := by linarith
  have hfs : h1 / (h1 + h2) + h2 / (h1 + h2) = 1 := by field_simp
  refine ⟨_, _, rfl, ?_, by ring, by ring, hfs⟩
  have h12 : h2 / (h1 + h2) = 1 - h1 / (h1 + h2) := by linarith
  rw [h12]
  ring

/-- Witness for C10 at `k = LAI = h = 1` for both species. -/
theorem wallace_sum_exact_witness :
    ((0:ℝ) < 1) ∧
    (∃ r1 r2, rad_intercpt_wallace [((1:ℝ), (1:ℝ), (1:ℝ)), ((1:ℝ), (1:ℝ), (1:ℝ))] =
        some [r1, r2] ∧
      r1 + r2 = 1 - Real.exp (-((1:ℝ) * 1)) * Real.exp (-((1:ℝ) * 1)) ∧
      (1 - Real.exp (-((1:ℝ) * 1))) - (1 - Real.exp (-((1:ℝ) * 1))) * Real.exp (-((1:ℝ) * 1)) =
        (1 - Real.exp (-((1:ℝ) * 1))) * (1 - Real.exp (-((1:ℝ) * 1))) ∧
      (1 - Real.exp (-((1:ℝ) * 1))) - (1 - Real.exp (-((1:ℝ) * 1))) * Real.exp (-((1:ℝ) * 1)) =
        (1 - Real.exp (-((1:ℝ) * 1))) * (1 - Real.exp (-((1:ℝ) * 1))) ∧
      (1:ℝ) / (1 + 1) + 1 / (1 + 1) = 1) :=
  ⟨by norm_num, wallace_sum_exact 1 1 1 1 1 1 (by norm_num) (by norm_num)⟩

/-! ### Claim C8 -/

/-- Claim C8: for valid inputs, each model's per-species interceptions lie
in `[0, I_total]` and their sum does not exceed
`I_total = 1 - ∏ exp(-kᵢ·LAIᵢ)` (Cycles, Wallace, APSIM in turn). -/
theorem models_outputs_bounded_by_total :
    (∀ cl : List (ℝ × ℝ × ℝ), cl ≠ [] → (∀ c ∈ cl, 0 < c.1 * c.2.1) →
      (∀ c ∈ cl, 0 < c.2.2) →
      ∃ out, rad_intercpt_cycles cl = some out ∧
        (∀ r ∈ out, 0 ≤ r ∧ r ≤ 1 - (cl.map (fun c => Real.exp (-(c.1 * c.2.1)))).prod) ∧
        out.sum ≤ 1 - (cl.map (fun c => Real.exp (-(c.1 * c.2.1)))).prod) ∧
    (∀ k1 l1 h1 k2 l2 h2 : ℝ, 0 < k1 * l1 → 0 < k2 * l2 → 0 < h1 → 0 < h2 →
      ∃ out, rad_intercpt_wallace [(k1, l1, h1), (k2, l2, h2)] = some out ∧
        (∀ r ∈ out, 0 ≤ r ∧ r ≤ 1 - Real.exp (-(k1 * l1)) * Real.exp (-(k2 * l2))) ∧
        out.sum ≤ 1 - Real.exp (-(k1 * l1)) * Real.exp (-(k2 * l2))) ∧
    (∀ cl : List (ℝ × ℝ), (∀ c ∈ cl, 0 < c.1 * c.2) →
      (∀ r ∈ rad_intercpt_apsim cl,
        0 ≤ r ∧ r ≤ 1 - (cl.map (fun c => Real.exp (-(c.1 * c.2)))).prod) ∧
      (rad_intercpt_apsim cl).sum ≤ 1 - (cl.map (fun c => Real.exp (-(c.1 * c.2)))).prod) := by
  refine ⟨?_, ?_, ?_⟩
  · intro cl hne hp hh
    obtain ⟨h1, h2, h3, _⟩ := cycles_core cl hne hp hh
    rw [total_interception_expand] at h2 h3
    exact ⟨cyclesOut cl, h1, h3, le_of_eq h2⟩
  · intro k1 l1 h1 k2 l2 h2 hp1 hp2 hh1 hh2
    have hT1p : 0 < Real.exp (-(k1 * l1)) := Real.exp_pos _
    have hT2p : 0 < Real.exp (-(k2 * l2)) := Real.exp_pos _
    have hT1l : Real.exp (-(k1 * l1)) < 1 := exp_neg_lt_one hp1
    have hT2l : Real.exp (-(k2 * l2)) < 1 := exp_neg_lt_one hp2
    have hs : (0:ℝ) < h1 + h2 := by linarith
    have hfs : h1 / (h1 + h2) + h2 / (h1 + h2) = 1 := by field_simp
    have hf1 : 0 ≤ h1 / (h1 + h2) := by positivity
    have hf2 : 0 ≤ h2 / (h1 + h2) := by positivity
    have hb1 : 0 ≤ (1 - Real.exp (-(k1 * l1))) -
        (1 - Real.exp (-(k1 * l1))) * Real.exp (-(k2 * l2)) := by nlinarith
    have hb2 : 0 ≤ (1 - Real.exp (-(k2 * l2))) -
        (1 - Real.exp (-(k2 * l2))) * Real.exp (-(k1 * l1)) := by nlinarith
    have hE1 : 0 ≤ (1 - Real.exp (-(k1 * l1))) * Real.exp (-(k2 * l2)) +
        h1 / (h1 + h2) * ((1 - Real.exp (-(k1 * l1))) -
          (1 - Real.exp (-(k1 * l1))) * Real.exp (-(k2 * l2))) :=
      add_nonneg (mul_nonneg (by linarith) hT2p.le) (mul_nonneg hf1 hb1)
    have hE2 : 0 ≤ (1 - Real.exp (-(k2 * l2))) * Real.exp (-(k1 * l1)) +
        h2 / (h1 + h2) * ((1 - Real.exp (-(k2 * l2))) -
          (1 - Real.exp (-(k2 * l2))) * Real.exp (-(k1 * l1))) :=
      add_nonneg (mul_nonneg (by linarith) hT1p.le) (mul_nonneg hf2 hb2)
    have hsum : ((1 - Real.exp (-(k1 * l1))) * Real.exp (-(k2 * l2)) +
        h1 / (h1 + h2) * ((1 - Real.exp (-(k1 * l1))) -
          (1 - Real.exp (-(k1 * l1))) * Real.exp (-(k2 * l2)))) +
        ((1 - Real.exp (-(k2 * l2))) * Real.exp (-(k1 * l1)) +
        h2 / (h1 + h2) * ((1 - Real.exp (-(k2 * l2))) -
          (1 - Real.exp (-(k2 * l2))) * Real.exp (-(k1 * l1)))) =
        1 - Real.exp (-(k1 * l1)) * Real.exp (-(k2 * l2)) := by
      have h12 : h2 / (h1 + h2) = 1 - h1 / (h1 + h2) := by linarith
      rw [h12]
      ring
    refine ⟨_, rfl, ?_, ?_⟩
    · intro r hr
      rcases List.mem_cons.mp hr with rfl | hr2
      · exact ⟨hE1, by linarith⟩
      · rw [List.mem_singleton] at hr2
        subst hr2
        exact ⟨hE2, by linarith⟩
    · rw [List.sum_cons, List.sum_cons, List.sum_nil]
      linarith
  · intro cl hp
    rcases eq_or_ne cl [] with rfl | hne
    · constructor
      · intro r hr
        rw [show rad_intercpt_apsim ([] : List (ℝ × ℝ)) = [] from rfl] at hr
        simp at hr
      · rw [show rad_intercpt_apsim ([] : List (ℝ × ℝ)) = [] from rfl]
        norm_num
    · have hprodlt : (cl.map (fun c => Real.exp (-(c.1 * c.2)))).prod < 1 := by
        refine list_prod_lt_one (fun h => hne (List.map_eq_nil.mp h)) ?_ ?_
        · intro x hx
          obtain ⟨c, _, rfl⟩ := List.mem_map.mp hx
          exact Real.exp_pos _
        · intro x hx
          obtain ⟨c, hc, rfl⟩ := List.mem_map.mp hx
          exact exp_neg_lt_one (hp c hc)
      have hI : 0 < 1 - (cl.map (fun c => Real.exp (-(c.1 * c.2)))).prod := by linarith
      have hP : 0 < (cl.map (fun d => d.1 * d.2)).sum := by
        refine list_sum_pos (fun h => hne (List.map_eq_nil.mp h)) ?_
        intro x hx
        obtain ⟨c, hc, rfl⟩ := List.mem_map.mp hx
        exact hp c hc
      constructor
      · intro r hr
        rw [apsim_all_pos_map cl hp] at hr
        obtain ⟨c, hc, rfl⟩ := List.mem_map.mp hr
        have hc' := hp c hc
        constructor
        · exact mul_nonneg (div_nonneg hI.le hP.le) hc'.le
        · have hle : c.1 * c.2 ≤ (cl.map (fun d => d.1 * d.2)).sum :=
            list_el_le_sum
              (by
                intro x hx
                obtain ⟨d, hd, rfl⟩ := List.mem_map.mp hx
                exact (hp d hd).le)
              (List.mem_map.mpr ⟨c, hc, rfl⟩)
          calc (1 - (cl.map (fun d => Real.exp (-(d.1 * d.2)))).prod) /
              (cl.map (fun d => d.1 * d.2)).sum * (c.1 * c.2) =
              (1 - (cl.map (fun d => Real.exp (-(d.1 * d.2)))).prod) *
                ((c.1 * c.2) / (cl.map (fun d => d.1 * d.2)).sum) := by ring
            _ ≤ (1 - (cl.map (fun d => Real.exp (-(d.1 * d.2)))).prod) * 1 :=
              mul_le_mul_of_nonneg_left ((div_le_one hP).mpr hle) hI.le
            _ = 1 - (cl.map (fun d => Real.exp (-(d.1 * d.2)))).prod := mul_one _
      · rw [apsim_sum_eq cl hne hp]

/-- Witness for C8: one-species Cycles, twin-species Wallace and
one-species APSIM instances at unit parameters. -/
theorem models_outputs_bounded_by_total_witness :
    (([((1:ℝ), (1:ℝ), (1:ℝ))] : List (ℝ × ℝ × ℝ)) ≠ []) ∧
    (∃ out, rad_intercpt_cycles [((1:ℝ), (1:ℝ), (1:ℝ))] = some out ∧
      (∀ r ∈ out, 0 ≤ r ∧ r ≤ 1 - (([((1:ℝ), (1:ℝ), (1:ℝ))] : List (ℝ × ℝ × ℝ)).map
        (fun c => Real.exp (-(c.1 * c.2.1)))).prod) ∧
      out.sum ≤ 1 - (([((1:ℝ), (1:ℝ), (1:ℝ))] : List (ℝ × ℝ × ℝ)).map
        (fun c => Real.exp (-(c.1 * c.2.1)))).prod) ∧
    (∃ out, rad_intercpt_wallace [((1:ℝ), (1:ℝ), (1:ℝ)), ((1:ℝ), (1:ℝ), (1:ℝ))] = some out ∧
      (∀ r ∈ out, 0 ≤ r ∧ r ≤ 1 - Real.exp (-((1:ℝ) * 1)) * Real.exp (-((1:ℝ) * 1))) ∧
      out.sum ≤ 1 - Real.exp (-((1:ℝ) * 1)) * Real.exp (-((1:ℝ) * 1))) ∧
    ((∀ r ∈ rad_intercpt_apsim [((1:ℝ), (1:ℝ))],
        0 ≤ r ∧ r ≤ 1 - (([((1:ℝ), (1:ℝ))] : List (ℝ × ℝ)).map
          (fun c => Real.exp (-(c.1 * c.2)))).prod) ∧
      (rad_intercpt_apsim [((1:ℝ), (1:ℝ))]).sum ≤
        1 - (([((1:ℝ), (1:ℝ))] : List (ℝ × ℝ)).map (fun c => Real.exp (-(c.1 * c.2)))).prod) := by
  refine ⟨by simp, ?_, ?_, ?_⟩
  · refine models_outputs_bounded_by_total.1 _ (by simp) ?_ ?_ <;>
      (intro c hc; rw [List.mem_singleton] at hc; subst hc; norm_num)
  · exact models_outputs_bounded_by_total.2.1 1 1 1 1 1 1
      (by norm_num) (by norm_num) (by norm_num) (by norm_num)
  · refine models_outputs_bounded_by_total.2.2 _ ?_
    intro c hc
    rw [List.mem_singleton] at hc
    subst hc
    norm_num

/-! ### Claim C6 -/

/-- Claim C6 is violated by the code: the Python assert
`(a and b and c and n) > 0` only tests the first zero operand (or the last
operand), so the strictly negative `height_dom = -1` slips through and the
function returns `0.12` instead of raising. -/
theorem height_weight_fact_negative_input_returns_value :
    height_weight_fact (-1) 1.52 0.56 3 = some 0.12 ∧
    height_weight_fact (-1) 1.52 0.56 3 ≠ none := by
  have hcond : (if (-1:ℝ) = 0 then (-1:ℝ)
      else if (1.52:ℝ) = 0 then (1.52:ℝ)
      else if (0.56:ℝ) = 0 then (0.56:ℝ)
      else ((3:ℕ):ℝ)) > 0 := by
    rw [if_neg (by norm_num), if_neg (by norm_num), if_neg (by norm_num)]
    norm_num
  have hval : height_weight_fact (-1) 1.52 0.56 3 = some 0.12 := by
    unfold height_weight_fact
    rw [if_pos hcond, if_neg (by norm_num : ¬((-1:ℝ) = 1)),
      if_pos (by norm_num : (-1:ℝ) < 1)]
    norm_num
  refine ⟨hval, ?_⟩
  rw [hval]
  simp

/-! ### Claim C5 -/

lemma solar_beam_fraction_eval_50 :
    solar_beam_fraction 101.3 50 0.45 =
      some ((0.45:ℝ) ^ ((101.3:ℝ) /
          (101.3 * Real.cos (50 * (Real.pi / 180) * (Real.pi / 180)))) *
        Real.cos (50 * (Real.pi / 180))) := by
  unfold solar_beam_fraction opt_air_mass
  rw [if_pos (⟨by norm_num, by norm_num⟩ : (0:ℝ) ≤ 50 ∧ (50:ℝ) ≤ 90),
    if_pos (⟨by norm_num, by norm_num⟩ : (0:ℝ) ≤ 0.45 ∧ (0.45:ℝ) ≤ 1),
    if_pos (⟨le_refl _, by norm_num⟩ : (101.3:ℝ) ≤ 101.3 ∧ (38:ℝ) < 101.3),
    if_pos (by positivity : (0:ℝ) ≤ 50 * (Real.pi / 180))]
  rfl

lemma solar_beam_fraction_eval_0 :
    solar_beam_fraction 101.3 0 0.75 = some 0.75 := by
  unfold solar_beam_fraction opt_air_mass
  rw [if_pos (⟨le_refl _, by norm_num⟩ : (0:ℝ) ≤ 0 ∧ (0:ℝ) ≤ 90),
    if_pos (⟨by norm_num, by norm_num⟩ : (0:ℝ) ≤ 0.75 ∧ (0.75:ℝ) ≤ 1),
    if_pos (⟨le_refl _, by norm_num⟩ : (101.3:ℝ) ≤ 101.3 ∧ (38:ℝ) < 101.3),
    if_pos (by positivity : (0:ℝ) ≤ 0 * (Real.pi / 180))]
  rw [Option.map_some']
  congr 1
  rw [show (0:ℝ) * (Real.pi / 180) = 0 by ring, show (0:ℝ) * (Real.pi / 180) = 0 by ring]
  rw [Real.cos_zero]
  rw [show (101.3:ℝ) / (101.3 * 1) = 1 by norm_num, Real.rpow_one, mul_one]

/-- Claim C5 versus the code: at zenith `0` the beam fraction equals the
transmittance (here at sea-level pressure and `t = 0.75`), but at zenith
`50°` the code's value, which feeds the already-converted angle into
`opt_air_mass` (a second multiplication by `π/180`), is strictly larger
than the claimed `t ^ (p/(101.3·cos z)) · cos z`. -/
theorem solar_beam_fraction_airmass_divergence :
    solar_beam_fraction 101.3 0 0.75 = some 0.75 ∧
    (∃ r, solar_beam_fraction 101.3 50 0.45 = some r ∧
      (0.45:ℝ) ^ ((101.3:ℝ) / (101.3 * Real.cos (50 * (Real.pi / 180)))) *
        Real.cos (50 * (Real.pi / 180)) < r ∧
      (0.45:ℝ) ^ ((101.3:ℝ) / (101.3 * Real.cos (50 * (Real.pi / 180)))) *
        Real.cos (50 * (Real.pi / 180)) ≠ r) := by
  refine ⟨solar_beam_fraction_eval_0, ?_⟩
  have hpi := Real.pi_pos
  have hpi2 : Real.pi < 3.15 := Real.pi_lt_d2
  have hB_pos : (0:ℝ) < 50 * (Real.pi / 180) := by positivity
  have hB_lt : 50 * (Real.pi / 180) < Real.pi / 2 := by linarith
  have hfrac : Real.pi / 180 < 1 := by linarith
  have hA_lt_B : 50 * (Real.pi / 180) * (Real.pi / 180) < 50 * (Real.pi / 180) := by
    have h := mul_lt_mul_of_pos_left hfrac hB_pos
    simpa using h
  have hA_pos : (0:ℝ) < 50 * (Real.pi / 180) * (Real.pi / 180) := by positivity
  have hcosB_pos : 0 < Real.cos (50 * (Real.pi / 180)) :=
    Real.cos_pos_of_mem_Ioo ⟨by linarith, hB_lt⟩
  have hcosA_pos : 0 < Real.cos (50 * (Real.pi / 180) * (Real.pi / 180)) :=
    Real.cos_pos_of_mem_Ioo ⟨by linarith, by linarith⟩
  have hcos_lt : Real.cos (50 * (Real.pi / 180)) <
      Real.cos (50 * (Real.pi / 180) * (Real.pi / 180)) :=
    Real.cos_lt_cos_of_nonneg_of_le_pi hA_pos.le (by linarith) hA_lt_B
  have hoam : (101.3:ℝ) / (101.3 * Real.cos (50 * (Real.pi / 180) * (Real.pi / 180))) <
      (101.3:ℝ) / (101.3 * Real.cos (50 * (Real.pi / 180))) := by
    refine div_lt_div_of_pos_left (by norm_num) ?_ ?_
    · exact mul_pos (by norm_num) hcosB_pos
    · exact mul_lt_mul_of_pos_left hcos_lt (by norm_num)
  have hrpow : (0.45:ℝ) ^ ((101.3:ℝ) / (101.3 * Real.cos (50 * (Real.pi / 180)))) <
      (0.45:ℝ) ^ ((101.3:ℝ) / (101.3 * Real.cos (50 * (Real.pi / 180) * (Real.pi / 180)))) :=
    Real.rpow_lt_rpow_of_exponent_gt (by norm_num) (by norm_num) hoam
  have hfin := mul_lt_mul_of_pos_right hrpow hcosB_pos
  exact ⟨_, solar_beam_fraction_eval_50, hfin, ne_of_lt hfin⟩

/-! ### Claim C3: Taylor bounds for the two exponentials of the reference
scenario -/

lemma exp_neg_half_bounds :
    (0.60653065:ℝ) ≤ Real.exp (-(1/2)) ∧ Real.exp (-(1/2)) ≤ 0.60653066 := by
  have h := Real.exp_bound (x := -(1/2)) (by rw [abs_le]; constructor <;> norm_num)
    (n := 10) (by norm_num)
  have hS : ∑ m ∈ Finset.range 10, (-(1/2):ℝ) ^ m / m.factorial =
      112690097 / 185794560 := by
    simp [Finset.sum_range_succ, Nat.factorial]
    norm_num
  have habs : |(-(1/2):ℝ)| = 1/2 := by
    rw [abs_of_nonpos (by norm_num)]
    norm_num
  rw [hS, habs, abs_le] at h
  obtain ⟨h1, h2⟩ := h
  have herr : ((1:ℝ)/2) ^ 10 * ((Nat.succ 10 : ℕ) / (((10).factorial : ℕ) * (10:ℕ)) : ℝ) =
      11 / 37158912000 := by
    norm_num [Nat.factorial]
  rw [herr] at h1 h2
  constructor <;> linarith

lemma exp_neg_seven_tenths_bounds :
    (0.49658530:ℝ) ≤ Real.exp (-(7/10)) ∧ Real.exp (-(7/10)) ≤ 0.49658531 := by
  have h := Real.exp_bound (x := -(7/10)) (by rw [abs_le]; constructor <;> norm_num)
    (n := 12) (by norm_num)
  have hS : ∑ m ∈ Finset.range 12, (-(7/10):ℝ) ^ m / m.factorial =
      283172803618380521 / 570240000000000000 := by
    simp [Finset.sum_range_succ, Nat.factorial]
    norm_num
  have habs : |(-(7/10):ℝ)| = 7/10 := by
    rw [abs_of_nonpos (by norm_num)]
    norm_num
  rw [hS, habs, abs_le] at h
  obtain ⟨h1, h2⟩ := h
  have herr : ((7:ℝ)/10) ^ 12 * ((Nat.succ 12 : ℕ) / (((12).factorial : ℕ) * (12:ℕ)) : ℝ) =
      25705247659 / 821145600000000000000 := by
    norm_num [Nat.factorial]
  rw [herr] at h1 h2
  constructor <;> linarith

lemma exp_neg_twentyone_tenths_bounds :
    (0.12245642:ℝ) ≤ Real.exp (-(21/10)) ∧ Real.exp (-(21/10)) ≤ 0.12245644 := by
  have h3 : Real.exp (-(21/10)) = Real.exp (-(7/10)) ^ (3:ℕ) := by
    rw [← Real.exp_nat_mul]
    norm_num
  obtain ⟨hw1, hw2⟩ := exp_neg_seven_tenths_bounds
  have hwpos : (0:ℝ) ≤ 0.49658530 := by norm_num
  constructor
  · rw [h3]
    calc (0.12245642:ℝ) ≤ 0.49658530 ^ (3:ℕ) := by norm_num
      _ ≤ Real.exp (-(7/10)) ^ (3:ℕ) := pow_le_pow_left hwpos hw1 3
  · rw [h3]
    calc Real.exp (-(7/10)) ^ (3:ℕ) ≤ (0.49658531:ℝ) ^ (3:ℕ) :=
        pow_le_pow_left (Real.exp_pos _).le hw2 3
      _ ≤ 0.12245644 := by norm_num

/-- Claim C3: the Wallace model computes exactly the claimed closed form
(suppressed interception plus the height fraction times the
dominant-minus-suppressed gap), and on the reference scenario
`[[0.5,1,1],[0.7,3,1]]` its two outputs are `0.220826` and `0.704900` to
within `1e-6`. -/
theorem wallace_formula_and_reference_values :
    (∀ k1 l1 h1 k2 l2 h2 : ℝ, 0 < h1 → 0 < h2 →
      rad_intercpt_wallace [(k1, l1, h1), (k2, l2, h2)] =
        some [(1 - Real.exp (-(k1 * l1))) * Real.exp (-(k2 * l2)) +
            h1 / (h1 + h2) * ((1 - Real.exp (-(k1 * l1))) -
              (1 - Real.exp (-(k1 * l1))) * Real.exp (-(k2 * l2))),
          (1 - Real.exp (-(k2 * l2))) * Real.exp (-(k1 * l1)) +
            h2 / (h1 + h2) * ((1 - Real.exp (-(k2 * l2))) -
              (1 - Real.exp (-(k2 * l2))) * Real.exp (-(k1 * l1)))]) ∧
    (∃ out, rad_intercpt_wallace [((0.5:ℝ), 1, 1), ((0.7:ℝ), 3, 1)] = some out ∧
      out.length = 2 ∧
      |out.getD 0 0 - 0.220826| < 1 / 1000000 ∧
      |out.getD 1 0 - 0.704900| < 1 / 1000000) := by
  constructor
  · intro k1 l1 h1 k2 l2 h2 _ _
    rfl
  · obtain ⟨hu1, hu2⟩ := exp_neg_half_bounds
    obtain ⟨hv1, hv2⟩ := exp_neg_twentyone_tenths_bounds
    have harg1 : -((0.5:ℝ) * 1) = -(1/2) := by norm_num
    have harg2 : -((0.7:ℝ) * 3) = -(21/10) := by norm_num
    have hprod1 : ((0.60653066:ℝ) - Real.exp (-(1/2))) *
        ((0.12245644:ℝ) - Real.exp (-(21/10))) ≥ 0 :=
      mul_nonneg (by linarith) (by linarith)
    have hprod2 : (Real.exp (-(1/2)) - (0.60653065:ℝ)) *
        (Real.exp (-(21/10)) - (0.12245642:ℝ)) ≥ 0 :=
      mul_nonneg (by linarith) (by linarith)
    have hprod3 : ((0.60653066:ℝ) - Real.exp (-(1/2))) *
        (Real.exp (-(21/10)) - (0.12245642:ℝ)) ≥ 0 :=
      mul_nonneg (by linarith) (by linarith)
    have hprod4 : (Real.exp (-(1/2)) - (0.60653065:ℝ)) *
        ((0.12245644:ℝ) - Real.exp (-(21/10))) ≥ 0 :=
      mul_nonneg (by linarith) (by linarith)
    refine ⟨_, rfl, rfl, ?_, ?_⟩
    · rw [List.getD_cons_zero, harg1, harg2, abs_lt]
      constructor <;> nlinarith [hprod1, hprod2, hprod3, hprod4]
    · rw [List.getD_cons_succ, List.getD_cons_zero, harg1, harg2, abs_lt]
      constructor <;> nlinarith [hprod1, hprod2, hprod3, hprod4]

/-- Witness for C3's universally quantified formula part at the reference
scenario heights. -/
theorem wallace_formula_and_reference_values_witness :
    ((0:ℝ) < 1) ∧
    rad_intercpt_wallace [((0.5:ℝ), (1:ℝ), (1:ℝ)), ((0.7:ℝ), (3:ℝ), (1:ℝ))] =
      some [(1 - Real.exp (-((0.5:ℝ) * 1))) * Real.exp (-((0.7:ℝ) * 3)) +
          (1:ℝ) / (1 + 1) * ((1 - Real.exp (-((0.5:ℝ) * 1))) -
            (1 - Real.exp (-((0.5:ℝ) * 1))) * Real.exp (-((0.7:ℝ) * 3))),
        (1 - Real.exp (-((0.7:ℝ) * 3))) * Real.exp (-((0.5:ℝ) * 1)) +
          (1:ℝ) / (1 + 1) * ((1 - Real.exp (-((0.7:ℝ) * 3))) -
            (1 - Real.exp (-((0.7:ℝ) * 3))) * Real.exp (-((0.5:ℝ) * 1)))] :=
  ⟨by norm_num,
    wallace_formula_and_reference_values.1 0.5 1 1 0.7 3 1 (by norm_num) (by norm_num)⟩

end LightInterception
